import Mathlib

/-!
Verification development for the wandb-results repository
(`wandb_results.py`): a run-filtering and result-shaping pipeline that
turns a list of experiment-tracking run records into a CSV-ready table.

Shallow embedding conventions:

* A scalar cell value (`Value`) is a string, an integer, a float
  (modelled as an exact rational; binary floating-point representation
  error and NaN-propagation subtleties are out of scope, `Value.na`
  stands for a missing cell / NaN), or missing.
* A run record (`Run`) carries `group`, `job_type`, `name`, and the
  `config` and `summary` mappings as ordered association lists, which
  models Python insertion-ordered dicts with unique keys.
* A `pandas.DataFrame` is a `Table`: a column-name list plus a list of
  rows, each row the list of cell values in column order.  `DataFrame`
  construction from a list of row dicts takes the union of the keys in
  first-seen order and fills missing cells with NaN (`Value.na`).
* Text processing (`str.lower`, `str.title`, `str.replace`) is modelled
  at the ASCII level (column names and filter strings are ASCII
  identifiers in this code base).
* CLI defaults follow `parse_opt`: absent group / job-type filters are
  the empty string, absent list filters are the empty list.
* `show_keys` only prints to the console and cannot alter the output
  (spec 4.1); it is omitted from the model.
-/

/-- A scalar cell value as it appears in a run's config/summary or in a
DataFrame cell.  `na` stands for a missing value (pandas NaN). -/
inductive Value where
  | s (v : String)
  | i (n : Int)
  | q (x : ℚ)
  | na
deriving DecidableEq, Repr

/-- A run record from the tracking service (spec section 3). -/
structure Run where
  group : String
  job_type : String
  name : String
  config : List (String × Value)
  summary : List (String × Value)
deriving DecidableEq, Repr

/-- A DataFrame: ordered column names and rows of cells (one cell per
column, in column order). -/
structure Table where
  cols : List String
  data : List (List Value)
deriving DecidableEq, Repr

/-- The ASCII letter case pairs (lowercase, uppercase), the table behind
Python `str.upper` / `str.lower` on the ASCII letters (all strings in
this code base are ASCII). -/
def caseTable : List (Char × Char) :=
  [('a', 'A'), ('b', 'B'), ('c', 'C'), ('d', 'D'), ('e', 'E'), ('f', 'F'),
   ('g', 'G'), ('h', 'H'), ('i', 'I'), ('j', 'J'), ('k', 'K'), ('l', 'L'),
   ('m', 'M'), ('n', 'N'), ('o', 'O'), ('p', 'P'), ('q', 'Q'), ('r', 'R'),
   ('s', 'S'), ('t', 'T'), ('u', 'U'), ('v', 'V'), ('w', 'W'), ('x', 'X'),
   ('y', 'Y'), ('z', 'Z')]

/-- Python `str.upper` on one character (ASCII model): uppercase a
lowercase letter, leave everything else alone. -/
def upChar (c : Char) : Char :=
  ((caseTable.find? (fun p => p.1 == c)).map Prod.snd).getD c

/-- Python `str.lower` on one character (ASCII model). -/
def downChar (c : Char) : Char :=
  ((caseTable.find? (fun p => p.2 == c)).map Prod.fst).getD c

/-- Python `str.lower`, ASCII model. -/
def lowerStr (st : String) : String := ⟨st.data.map downChar⟩

example : lowerStr "Different" = "different" := by decide
example : upChar 'q' = 'Q' ∧ downChar 'Q' = 'q' ∧ upChar '/' = '/' := by decide

/-- Python `str(value)` for the cell values the pipeline handles.  The
string form of a float is abstracted (an integral float prints with a
trailing `.0`, as Python does; other rationals print exactly); only
equality of stringified values matters to the pipeline (constant-column
detection). -/
def Value.pyStr : Value → String
  | .s v => v
  | .i n => toString n
  | .q x => if x.den = 1 then toString x.num ++ ".0" else toString x
  | .na => "nan"

/-- The numeric reading of a cell, used by sorting / top-N selection. -/
def Value.asNum : Value → Option ℚ
  | .i n => some (n : ℚ)
  | .q x => some x
  | _ => none

/-- Python `isinstance(v, float)`: floats and NaN are floats, ints and
strings are not. -/
def Value.isFloat : Value → Bool
  | .q _ => true
  | .na => true
  | _ => false

/-- Insert into a Python dict modelled as an ordered association list:
an existing key keeps its position and gets the new value, a new key is
appended. -/
def dInsert (d : List (String × Value)) (kv : String × Value) :
    List (String × Value) :=
  if d.any (fun p => p.1 == kv.1) then
    d.map (fun p => if p.1 == kv.1 then (p.1, kv.2) else p)
  else d ++ [kv]

/-- Python `dict.update` / repeated item assignment, left to right. -/
def dInsertMany (d : List (String × Value)) (l : List (String × Value)) :
    List (String × Value) :=
  l.foldl dInsert d

/-- The group/job-type gate of `filter_runs` (wandb_results.py line 29):
`(run.group == group_filter or group_filter == "") and
 (run.job_type == jt_filter or jt_filter == "")`.
The empty string is the CLI default meaning "no filter" (parse_opt). -/
def gate (r : Run) (group_filter jt_filter : String) : Bool :=
  (r.group == group_filter || group_filter == "") &&
    (r.job_type == jt_filter || jt_filter == "")

/-- Whether a gated-in run produces a row: always when no results filter
is given, otherwise exactly when at least one requested metric exists in
the run's summary (lines 56-73). -/
def emits (results_filter : List String) (r : Run) : Bool :=
  results_filter.isEmpty ||
    results_filter.any (fun k => (r.summary.lookup k).isSome)

/-- The config-selection branch of `filter_runs` (lines 41-45), applied
to the already-underscore-filtered config dict: an empty filter or one
whose first element lowercases to "different" copies the whole dict;
otherwise each named key is looked up (a missing key is Python's
KeyError). -/
def configSelect (config_filter : List String)
    (cfg : List (String × Value)) : Except String (List (String × Value)) :=
  match config_filter with
  | [] => .ok cfg
  | c0 :: _ =>
    if lowerStr c0 == "different" then .ok cfg
    else
      config_filter.mapM (fun k =>
        match cfg.lookup k with
        | some v => .ok (k, v)
        | none => .error ("KeyError: " ++ k))

/-- One iteration of the `filter_runs` loop body for a gated-in run
(lines 31-73): `.ok none` means the run is silently skipped, `.ok (some
row)` the produced row dict, `.error` a raised KeyError. -/
def buildRow (config_filter results_filter : List String)
    (include_timestamp : Bool) (r : Run) :
    Except String (Option (List (String × Value))) := do
  let cfg := r.config.filter (fun kv => !(kv.1.startsWith "_"))
  let sel ← configSelect config_filter cfg
  let base := dInsertMany
    [("group", Value.s r.group), ("job_type", Value.s r.job_type),
     ("run_name", Value.s r.name)] sel
  if results_filter.isEmpty then
    pure (some (dInsertMany base r.summary))
  else
    let found := results_filter.filter (fun k => (r.summary.lookup k).isSome)
    if found.isEmpty then pure none
    else
      let withMetrics := dInsertMany base
        (found.map (fun k => (k, (r.summary.lookup k).getD Value.na)))
      if include_timestamp then
        match r.summary.lookup "_timestamp" with
        | some v => pure (some (dInsert withMetrics ("timestamp", v)))
        | none => .error "KeyError: _timestamp"
      else pure (some withMetrics)

/-- The whole `filter_runs` loop (lines 26-73): the list of row dicts
appended for the gated-in, non-skipped runs, in run order. -/
def buildRows (group_filter jt_filter : String)
    (config_filter results_filter : List String)
    (include_timestamp : Bool) :
    List Run → Except String (List (List (String × Value)))
  | [] => .ok []
  | r :: rest =>
    if gate r group_filter jt_filter then do
      let row? ← buildRow config_filter results_filter include_timestamp r
      let tl ← buildRows group_filter jt_filter config_filter results_filter
        include_timestamp rest
      pure (match row? with | some row => row :: tl | none => tl)
    else
      buildRows group_filter jt_filter config_filter results_filter
        include_timestamp rest

/-- The prune-mode test of lines 41 and 80:
`config_filter and config_filter[0].lower() == 'different'`. -/
def pruneMode (config_filter : List String) : Bool :=
  match config_filter with
  | [] => false
  | c0 :: _ => lowerStr c0 == "different"

/-- `pandas.DataFrame(output)` for a list of row dicts: columns are the
union of the keys in first-seen order; a row's missing keys become NaN
cells. -/
def toTable (rows : List (List (String × Value))) : Table :=
  let cols := rows.foldl
    (fun acc row => acc ++ (row.map Prod.fst).filter (fun k => !(acc.contains k)))
    []
  { cols := cols,
    data := rows.map (fun row => cols.map (fun c => (row.lookup c).getD Value.na)) }

/-- The cell of row `row` in column number `i` (NaN when the row is too
short, which does not occur on well-formed tables). -/
def cellAt (row : List Value) (i : ℕ) : Value := (row.get? i).getD Value.na

/-- The number of distinct stringified values of column number `i`, i.e.
`len(set(df[col].apply(str)))` of `remove_constant_columns`. -/
def distinctCount (t : Table) (i : ℕ) : ℕ :=
  ((t.data.map (fun row => (cellAt row i).pyStr)).dedup).length

/-- `remove_constant_columns` (lines 85-107): drop every column whose
values all have the same string representation. -/
def remove_constant_columns (t : Table) : Table :=
  let keep := (List.range t.cols.length).filter (fun i => !(distinctCount t i == 1))
  { cols := keep.map (fun i => t.cols.getD i ""),
    data := t.data.map (fun row => keep.map (fun i => cellAt row i)) }

/-- The error message of line 76. -/
def noRunsMsg : String :=
  "No runs found for given filters. Please check valid values are passed."

/-- `filter_runs` (lines 13-82): build the rows, raise if none, convert
to a DataFrame, and prune constant columns in "different" mode. -/
def filter_runs (runs : List Run) (group_filter jt_filter : String)
    (config_filter results_filter : List String)
    (include_timestamp : Bool) : Except String Table := do
  let out ← buildRows group_filter jt_filter config_filter results_filter
    include_timestamp runs
  if out.isEmpty then .error noRunsMsg
  else
    let df := toTable out
    pure (if pruneMode config_filter then remove_constant_columns df else df)

/-- Lexicographic three-way comparison of numeric key lists (keys taken
from the named sort columns, compared left to right). -/
def cmpQL : List ℚ → List ℚ → Ordering
  | [], [] => .eq
  | [], _ :: _ => .lt
  | _ :: _, [] => .gt
  | x :: xs, y :: ys =>
    if x < y then .lt else if y < x then .gt else cmpQL xs ys

/-- The order behind the executable stand-ins for the pipeline's sort
stages: bigger key lists first, ties in original (index) order.  The
source itself fixes no order among tied rows — see `sortStage` and
`nlargest`. -/
def desLex {α : Type} (k : α → List ℚ) (idx : α → ℕ) (a b : α) : Prop :=
  cmpQL (k a) (k b) = .gt ∨ (cmpQL (k a) (k b) = .eq ∧ idx a ≤ idx b)

def desLexDec {α : Type} (k : α → List ℚ) (idx : α → ℕ) :
    DecidableRel (desLex k idx) := fun _ _ =>
  inferInstanceAs (Decidable (_ ∨ _ ∧ _))

/-- Descending sort of rows by a numeric key function, realizing one
concrete order among tied rows (their original order): decorate each
row with its original index, insertion-sort by `desLex`, strip the
indices. -/
def stableSortDesc (keyF : List Value → List ℚ) (rows : List (List Value)) :
    List (ℕ × List Value) :=
  @List.insertionSort _ (desLex (fun p => keyF p.2) Prod.fst)
    (desLexDec _ _) rows.enum

/-- The numeric sort keys of a row for the named columns: the cell of
each named column read as a number (non-numeric cells read as 0 here;
pandas instead sorts string columns lexicographically and raises on
unorderable object columns, behavior no theorem below relies on). -/
def rowKeys (t : Table) (sortCols : List String) (row : List Value) : List ℚ :=
  sortCols.map (fun c => ((cellAt row (t.cols.indexOf c)).asNum).getD 0)

/-- Executable stand-in for line 142's
`df.sort_values(by=sort_cols, ascending=False)`.  The source passes no
`kind`, and pandas' default `quicksort` guarantees no particular order
among rows that tie on all named columns (only `mergesort`/`stable` are
documented as stable), so the program's tie order is unspecified.  This
function fixes one concrete order (ties in original position) solely so
that the pipeline composition `Wandb.main` stays an executable
function; no theorem below states this stage's row order as a program
property. -/
def sortStage (sortCols : List String) (t : Table) : Table :=
  { cols := t.cols,
    data := (stableSortDesc (rowKeys t sortCols) t.data).map Prod.snd }

/-- Executable stand-in for line 145's `df.nlargest(n, metric)`
(pandas `keep='first'`).  For `n` below the row count pandas selects
through a stable mergesort over the rows with a non-NaN metric and pads
with the NaN-metric rows up to `n`; at or above the row count it falls
back to `sort_values(ascending=False)` with the unstable default
`quicksort` kind, leaving the tie order unspecified.  This function
fixes one concrete behavior (drop non-numeric rows, descending sort
with ties in original position, take `n`) solely so that
`Wandb.main` stays an executable function; no theorem below states
this stage's output as a program property. -/
def nlargest (n : ℕ) (metric : String) (t : Table) : Table :=
  let i := t.cols.indexOf metric
  let valid := t.data.filter (fun row => ((cellAt row i).asNum).isSome)
  { cols := t.cols,
    data := ((stableSortDesc (fun row => [((cellAt row i).asNum).getD 0]) valid).map
      Prod.snd).take n }

/-- Python's `needle in hay` on lists of characters (contiguous
substring, the empty needle always present). -/
def headChars : List Char → List Char → Bool
  | [], _ => true
  | _ :: _, [] => false
  | a :: as, b :: bs => a == b && headChars as bs

def subChars (p : List Char) : List Char → Bool
  | [] => headChars p []
  | c :: t => headChars p (c :: t) || subChars p t

/-- Python `needle in hay` on strings. -/
def strIn (needle hay : String) : Bool := subChars needle.data hay.data

/-- The rounding rule of `main` (lines 147-164), translated branch by
branch: `accuracy`, `f1_score` and `lr` are matched against the raw
column name, `ssim`, `psnr`, `sam`, `ergas` and `timestamp` against the
lowercased column name; the first matching branch gives the number of
decimal places. -/
def roundRule (col : String) : Option ℕ :=
  if strIn "accuracy" col then some 2
  else if strIn "f1_score" col then some 3
  else if strIn "lr" col then some 6
  else if strIn "ssim" (lowerStr col) then some 4
  else if strIn "psnr" (lowerStr col) then some 3
  else if strIn "sam" (lowerStr col) then some 3
  else if strIn "ergas" (lowerStr col) then some 3
  else if strIn "timestamp" (lowerStr col) then some 0
  else none

/-- Round a rational to `d` decimal places (models float `Series.round`;
the tie-breaking rule at exact decimal halves — unreachable through
binary floats — is abstracted as round-half-up). -/
def roundTo (d : ℕ) (x : ℚ) : ℚ := (⌊x * 10 ^ d + 1 / 2⌋ : ℚ) / 10 ^ d

/-- `Series.round(d)` on one cell: floats are rounded, anything else is
untouched (NaN stays NaN). -/
def roundCell (d : ℕ) : Value → Value
  | .q x => .q (roundTo d x)
  | v => v

/-- The first value of column `i`, `df[col][0]` of lines 149-163 (the
model feeds the rounding stage tables with a fresh positional index, so
label 0 is the first row). -/
def firstCell (t : Table) (i : ℕ) : Value := cellAt ((t.data.get? 0).getD []) i

/-- The rounding stage of `main` (lines 147-164): each column whose name
matches a rounding branch and whose first value is a float is rounded to
the branch's number of decimal places. -/
def roundStage (t : Table) : Table :=
  { cols := t.cols,
    data := t.data.map (fun row => (List.range t.cols.length).map (fun i =>
      match roundRule (t.cols.getD i "") with
      | some d =>
        if (firstCell t i).isFloat then roundCell d (cellAt row i) else cellAt row i
      | none => cellAt row i)) }

/-- Claimed rounding rule, written from the claim's words: every marker
is checked case-insensitively (in the source's branch order). -/
def roundRuleClaimCI (col : String) : Option ℕ :=
  if strIn "accuracy" (lowerStr col) then some 2
  else if strIn "f1_score" (lowerStr col) then some 3
  else if strIn "lr" (lowerStr col) then some 6
  else if strIn "ssim" (lowerStr col) then some 4
  else if strIn "psnr" (lowerStr col) then some 3
  else if strIn "sam" (lowerStr col) then some 3
  else if strIn "ergas" (lowerStr col) then some 3
  else if strIn "timestamp" (lowerStr col) then some 0
  else none

/-- The rounding stage as the claim states it (all markers
case-insensitive); compared against `roundStage` to settle C4. -/
def roundStageClaimCI (t : Table) : Table :=
  { cols := t.cols,
    data := t.data.map (fun row => (List.range t.cols.length).map (fun i =>
      match roundRuleClaimCI (t.cols.getD i "") with
      | some d =>
        if (firstCell t i).isFloat then roundCell d (cellAt row i) else cellAt row i
      | none => cellAt row i)) }

/-- The amended rounding rule, written as the amended claim reads: a
first-match lookup in the marker table, where a marker is matched
case-sensitively or case-insensitively as flagged. -/
def roundMarkers : List (String × ℕ × Bool) :=
  [("accuracy", 2, false), ("f1_score", 3, false), ("lr", 6, false),
   ("ssim", 4, true), ("psnr", 3, true), ("sam", 3, true),
   ("ergas", 3, true), ("timestamp", 0, true)]

def roundRuleAmended (col : String) : Option ℕ :=
  (roundMarkers.find? (fun m =>
    strIn m.1 (cond m.2.2 (lowerStr col) col))).map (fun m => m.2.1)

/-- The rounding stage as the amended claim reads. -/
def roundStageAmended (t : Table) : Table :=
  { cols := t.cols,
    data := t.data.map (fun row => (List.range t.cols.length).map (fun i =>
      match roundRuleAmended (t.cols.getD i "") with
      | some d =>
        if (firstCell t i).isFloat then roundCell d (cellAt row i) else cellAt row i
      | none => cellAt row i)) }

/-- One character of `col.replace('/', ' ').replace('_', ' ')` (single
character replacements act characterwise). -/
def sepChar (c : Char) : Char :=
  if c = '/' then ' ' else if c = '_' then ' ' else c

/-- Python `str.title` (ASCII model): the first alphabetic character of
each word is uppercased and the rest lowercased, where a word boundary
is any non-alphabetic character; the flag carries whether the previous
character was alphabetic. -/
def titleAux : Bool → List Char → List Char
  | _, [] => []
  | prev, c :: rest =>
    (if c.isAlpha then (if prev then downChar c else upChar c) else c)
      :: titleAux c.isAlpha rest

def pyTitle (st : String) : String := ⟨titleAux false st.data⟩

/-- `renamed_col.replace('Lr', 'LR')` (line 120): left-to-right,
non-overlapping two-character replacement. -/
def replLr : List Char → List Char
  | [] => []
  | [c] => [c]
  | a :: b :: rest =>
    if a = 'L' ∧ b = 'r' then 'L' :: 'R' :: replLr rest
    else a :: replLr (b :: rest)

/-- `renamed_col.replace('Nn', 'NN')` (line 121). -/
def replNn : List Char → List Char
  | [] => []
  | [c] => [c]
  | a :: b :: rest =>
    if a = 'N' ∧ b = 'n' then 'N' :: 'N' :: replNn rest
    else a :: replNn (b :: rest)

/-- The per-name body of `get_columns_mapper` (lines 110-123): separators
to spaces, title-case, then fix the `Lr` and `Nn` title-casing
artifacts. -/
def mapColName (col : String) : String :=
  ⟨replNn (replLr (titleAux false (col.data.map sepChar)))⟩

/-- `get_columns_mapper` (lines 110-123): the raw-to-display name
mapping for a table's columns. -/
def get_columns_mapper (t : Table) : List (String × String) :=
  t.cols.map (fun c => (c, mapColName c))

/-- `df.rename(columns=columns_mapper)` (line 168). -/
def renameStage (t : Table) : Table :=
  { cols := t.cols.map mapColName, data := t.data }

/-- The CLI configuration object built by `parse_opt` (lines 173-189);
`show_keys` is print-only and omitted. -/
structure Opt where
  project : String
  group_filter : String
  jt_filter : String
  config_filter : List String
  results_filter : List String
  save_file : String
  best_metric : String
  n_largest : ℕ
  sort_by : List String
  include_timestamp : Bool
deriving DecidableEq, Repr

/-- The `parse_opt` defaults (lines 175-186). -/
def parse_opt : Opt :=
  ⟨"au-phd/Cow-ID", "", "", [], [], "results.csv", "", 5, [], false⟩

namespace Wandb

/-- `main` (lines 126-170) on an already-fetched run list: filter, then
the optional sort / top-N stages, rounding, renaming; the result pairs
the output path with the final table (`df.to_csv(opt.save_file)`), and
an error means the pipeline aborted with no file written.  (Lean
reserves the root name `main` for executables, hence the namespace.) -/
def main (opt : Opt) (runs : List Run) : Except String (String × Table) := do
  let df ← filter_runs runs opt.group_filter opt.jt_filter opt.config_filter
    opt.results_filter opt.include_timestamp
  let df := if !opt.sort_by.isEmpty then sortStage opt.sort_by df else df
  let df := if !(opt.best_metric == "") then nlargest opt.n_largest opt.best_metric df
    else df
  let df := roundStage df
  let df := renameStage df
  pure (opt.save_file, df)

end Wandb

example : mapColName "train/lr" = "Train LR" := by decide
example : mapColName "model_nn_type" = "Model NN Type" := by decide
example : roundRule "val_ssim" = some 4 ∧ roundRule "lr" = some 6 := by decide
example : roundRule "LR" = none ∧ roundRuleClaimCI "LR" = some 6 := by decide

/-- Whether a single run contributes a row to `filter_runs` when no
config or results filter is given (the setting claim C3 quantifies
over: only the group and job-type filters vary). -/
def included (r : Run) (group_filter jt_filter : String) : Bool :=
  match buildRows group_filter jt_filter [] [] false [r] with
  | .ok (_ :: _) => true
  | _ => false

/-- A concrete run used by the witnesses. -/
def runW : Run := ⟨"A", "t", "r1", [], []⟩

/-- The row `filter_runs` builds for `runW` with no config/results
filter. -/
def rowW : List (String × Value) :=
  [("group", Value.s "A"), ("job_type", Value.s "t"), ("run_name", Value.s "r1")]

/-- A concrete two-row table used by the witnesses. -/
def tableW : Table := ⟨["x"], [[Value.i 1], [Value.i 3]]⟩

/-! Theorems.  Helper lemmas come first, then one theorem per claim
(with a witness where the theorem has hypotheses). -/

lemma exceptBindOk {α β : Type} (a : α) (f : α → Except String β) :
    (Except.ok a >>= f : Except String β) = f a := rfl

lemma exceptBindErr {α β : Type} (e : String) (f : α → Except String β) :
    (Except.error e >>= f : Except String β) = .error e := rfl

lemma distinctCount_pos (t : Table) (i : ℕ) (h : 0 < t.data.length) :
    1 ≤ distinctCount t i := by
  unfold distinctCount
  obtain ⟨row, rest, hd⟩ := List.exists_cons_of_ne_nil (List.length_pos.mp h)
  rw [hd]
  have : (Value.pyStr (cellAt row i)) ∈
      (((row :: rest).map (fun r => (cellAt r i).pyStr)).dedup) := by
    rw [List.mem_dedup]
    exact List.mem_map_of_mem _ (List.mem_cons_self _ _)
  exact List.length_pos.mpr (List.ne_nil_of_mem this)

lemma distinctCount_single (t : Table) (row : List Value)
    (hdata : t.data = [row]) (i : ℕ) : distinctCount t i = 1 := by
  unfold distinctCount
  rw [hdata]
  simp

lemma remove_constant_single (t : Table) (row : List Value)
    (hdata : t.data = [row]) :
    (remove_constant_columns t).cols = [] ∧
      (remove_constant_columns t).data = [[]] := by
  unfold remove_constant_columns
  have hkeep : (List.range t.cols.length).filter
      (fun i => !(distinctCount t i == 1)) = [] := by
    apply List.filter_eq_nil_iff.mpr
    intro i _
    simp [distinctCount_single t row hdata i]
  rw [hkeep]
  simp [hdata]

/-- C10: a one-row table makes every column constant (each column has a
single stringified value), so the pruner drops all columns: the result
has one row and zero columns.  In "different" mode, therefore, a single
matching run yields a table of one row and no columns at all — the
group, job_type and run_name identity fields included. -/
theorem c10_single_row_prunes_everything (t : Table)
    (h : t.data.length = 1) :
    ((remove_constant_columns t).cols = [] ∧
      (remove_constant_columns t).data = [[]]) ∧
    ∀ (runs : List Run) (gf jf : String) (cf rf : List String) (ts : Bool)
      (row : List (String × Value)),
      pruneMode cf = true →
      buildRows gf jf cf rf ts runs = .ok [row] →
      filter_runs runs gf jf cf rf ts = .ok ⟨[], [[]]⟩ := by
  constructor
  · obtain ⟨row, hrow⟩ := List.length_eq_one.mp h
    exact remove_constant_single t row hrow
  · intro runs gf jf cf rf ts row hprune hrows
    unfold filter_runs
    rw [hrows, exceptBindOk]
    have hone : (toTable [row]).data = [(toTable [row]).cols.map
        (fun c => (row.lookup c).getD Value.na)] := by
      simp [toTable]
    obtain ⟨hc, hd⟩ := remove_constant_single (toTable [row]) _ hone
    simp only [List.isEmpty_cons, hprune, if_true, if_false,
      Bool.false_eq_true]
    rw [show (remove_constant_columns (toTable [row])) = ⟨[], [[]]⟩ from by
      cases hrc : remove_constant_columns (toTable [row])
      simp_all]
    rfl

/-- Witness for C10 at a concrete one-row table and a concrete
"different"-mode `filter_runs` call. -/
theorem c10_witness :
    ((remove_constant_columns ⟨["a"], [[Value.i 7]]⟩).cols = [] ∧
      (remove_constant_columns ⟨["a"], [[Value.i 7]]⟩).data = [[]]) ∧
    ∀ (runs : List Run) (gf jf : String) (cf rf : List String) (ts : Bool)
      (row : List (String × Value)),
      pruneMode cf = true →
      buildRows gf jf cf rf ts runs = .ok [row] →
      filter_runs runs gf jf cf rf ts = .ok ⟨[], [[]]⟩ :=
  c10_single_row_prunes_everything ⟨["a"], [[Value.i 7]]⟩ (by decide)

/-- C5: on any table the pruner sees (the pipeline hands it only
non-empty tables), every retained column has at least 2 distinct
stringified values, every dropped one exactly 1 (the first conjunct
says the retained columns are exactly those with at least 2, the second
that a column that does not have at least 2 has exactly 1); and
`filter_runs` applies the pruner only in "different" mode — otherwise
the DataFrame of the built rows passes through untouched. -/
theorem c5_pruner_contract (t : Table) (h : 0 < t.data.length) :
    ((remove_constant_columns t).cols
        = ((List.range t.cols.length).filter
            (fun i => decide (2 ≤ distinctCount t i))).map
          (fun i => t.cols.getD i ""))
    ∧ (∀ i, i < t.cols.length → distinctCount t i < 2 → distinctCount t i = 1)
    ∧ ∀ (runs : List Run) (gf jf : String) (cf rf : List String) (ts : Bool)
        (tb : Table),
        pruneMode cf = false →
        filter_runs runs gf jf cf rf ts = .ok tb →
        ∃ out, buildRows gf jf cf rf ts runs = .ok out ∧ tb = toTable out := by
  refine ⟨?_, ?_, ?_⟩
  · unfold remove_constant_columns
    simp only
    congr 1
    apply List.filter_congr
    intro i _
    have h1 := distinctCount_pos t i h
    by_cases hc : distinctCount t i = 1
    · simp [hc]
    · have h2 : 2 ≤ distinctCount t i := by omega
      simp [hc, h2]
  · intro i _ hlt
    have h1 := distinctCount_pos t i h
    omega
  · intro runs gf jf cf rf ts tb hprune hf
    unfold filter_runs at hf
    cases hb : buildRows gf jf cf rf ts runs with
    | error e => rw [hb, exceptBindErr] at hf; exact absurd hf (by simp)
    | ok out =>
      rw [hb, exceptBindOk] at hf
      by_cases he : out.isEmpty
      · rw [if_pos he] at hf; exact absurd hf (by simp)
      · rw [if_neg he, hprune] at hf
        simp only [Bool.false_eq_true, if_false] at hf
        exact ⟨out, rfl, (by cases hf; rfl)⟩

/-- Witness for C5 at a concrete two-row table. -/
theorem c5_witness :
    ((remove_constant_columns tableW).cols
        = ((List.range tableW.cols.length).filter
            (fun i => decide (2 ≤ distinctCount tableW i))).map
          (fun i => tableW.cols.getD i ""))
    ∧ (∀ i, i < tableW.cols.length →
        distinctCount tableW i < 2 → distinctCount tableW i = 1)
    ∧ ∀ (runs : List Run) (gf jf : String) (cf rf : List String) (ts : Bool)
        (tb : Table),
        pruneMode cf = false →
        filter_runs runs gf jf cf rf ts = .ok tb →
        ∃ out, buildRows gf jf cf rf ts runs = .ok out ∧ tb = toTable out :=
  c5_pruner_contract tableW (by decide)

/-- C2: when zero rows survive filtering, `filter_runs` raises the
no-match error and the whole pipeline aborts with it — no output pair is
ever produced (the CSV step is never reached). -/
theorem c2_no_match_aborts (runs : List Run) (opt : Opt)
    (h : buildRows opt.group_filter opt.jt_filter opt.config_filter
      opt.results_filter opt.include_timestamp runs = .ok []) :
    filter_runs runs opt.group_filter opt.jt_filter opt.config_filter
      opt.results_filter opt.include_timestamp = .error noRunsMsg
    ∧ Wandb.main opt runs = .error noRunsMsg := by
  have h1 : filter_runs runs opt.group_filter opt.jt_filter opt.config_filter
      opt.results_filter opt.include_timestamp = .error noRunsMsg := by
    unfold filter_runs
    rw [h, exceptBindOk]
    rfl
  refine ⟨h1, ?_⟩
  unfold Wandb.main
  rw [h1, exceptBindErr]

/-- Witness for C2: a group filter matching no run. -/
theorem c2_witness :
    filter_runs [runW] "B" "" [] [] false = .error noRunsMsg
    ∧ Wandb.main ⟨"p", "B", "", [], [], "results.csv", "", 5, [], false⟩ [runW]
        = .error noRunsMsg :=
  c2_no_match_aborts [runW] ⟨"p", "B", "", [], [], "results.csv", "", 5, [], false⟩
    rfl

lemma buildRow_isSome (cf rf : List String) (ts : Bool) (r : Run)
    (row? : Option (List (String × Value)))
    (hb : buildRow cf rf ts r = .ok row?) : row?.isSome = emits rf r := by
  simp only [buildRow] at hb
  cases hcs : configSelect cf (r.config.filter (fun kv => !(kv.1.startsWith "_"))) with
  | error e => rw [hcs, exceptBindErr] at hb; exact absurd hb (by simp)
  | ok sel =>
    rw [hcs, exceptBindOk] at hb
    by_cases hrf : rf.isEmpty
    · rw [if_pos hrf] at hb
      cases hb
      simp [emits, hrf]
    · have hrf' : rf.isEmpty = false := by revert hrf; cases rf.isEmpty <;> simp
      rw [if_neg hrf] at hb
      by_cases hfd : (rf.filter (fun k => (r.summary.lookup k).isSome)).isEmpty
      · rw [if_pos hfd] at hb
        cases hb
        have hall : ∀ k ∈ rf, ¬((r.summary.lookup k).isSome = true) :=
          List.filter_eq_nil_iff.mp (List.isEmpty_iff.mp hfd)
        simp only [emits, hrf', Bool.false_or, Option.isSome_none]
        symm
        rw [List.any_eq_false]
        exact hall
      · have hne : (rf.filter (fun k => (r.summary.lookup k).isSome)) ≠ [] := by
          intro hnil
          rw [hnil] at hfd
          exact hfd rfl
        have hex : rf.any (fun k => (r.summary.lookup k).isSome) = true := by
          obtain ⟨k, hk⟩ := List.exists_mem_of_ne_nil _ hne
          obtain ⟨hk1, hk2⟩ := List.mem_filter.mp hk
          exact List.any_eq_true.mpr ⟨k, hk1, hk2⟩
        have hemits : emits rf r = true := by simp [emits, hex]
        rw [if_neg hfd] at hb
        cases ts with
        | false =>
          simp only [Bool.false_eq_true, if_false] at hb
          cases hb
          simp [hemits]
        | true =>
          simp only [if_true] at hb
          cases hlk : r.summary.lookup "_timestamp" with
          | none => rw [hlk] at hb; exact absurd hb (by simp)
          | some v => rw [hlk] at hb; cases hb; simp [hemits]

/-- C1: whenever `filter_runs` builds its row list without a KeyError,
the number of rows equals the number of gate-matching runs that emit a
row: all matching runs when no results filter is given, and exactly the
matching runs with at least one requested metric in their summary when
one is — matching runs with none of the requested metrics contribute no
row. -/
theorem c1_row_count (runs : List Run) (gf jf : String) (cf rf : List String)
    (ts : Bool) (out : List (List (String × Value)))
    (_hmatch : ∃ r ∈ runs, gate r gf jf = true)
    (hok : buildRows gf jf cf rf ts runs = .ok out) :
    out.length = (runs.filter (fun r => gate r gf jf && emits rf r)).length := by
  clear _hmatch
  induction runs generalizing out with
  | nil => unfold buildRows at hok; cases hok; simp
  | cons r rest ih =>
    unfold buildRows at hok
    by_cases hg : gate r gf jf
    · rw [if_pos hg] at hok
      cases hbr : buildRow cf rf ts r with
      | error e => rw [hbr, exceptBindErr] at hok; exact absurd hok (by simp)
      | ok row? =>
        rw [hbr, exceptBindOk] at hok
        cases hbs : buildRows gf jf cf rf ts rest with
        | error e => rw [hbs, exceptBindErr] at hok; exact absurd hok (by simp)
        | ok tl =>
          rw [hbs, exceptBindOk] at hok
          have hemit := buildRow_isSome cf rf ts r row? hbr
          cases row? with
          | some row =>
            cases hok
            have he : emits rf r = true := by simpa using hemit.symm
            simp [List.filter_cons, hg, he, ih tl hbs]
          | none =>
            cases hok
            have he : emits rf r = false := by simpa using hemit.symm
            simp [List.filter_cons, hg, he, ih tl hbs]
    · rw [if_neg hg] at hok
      have hg' : gate r gf jf = false := by revert hg; cases gate r gf jf <;> simp
      simp [List.filter_cons, hg', ih out hok]

/-- Witness for C1 at a concrete one-run list with no results filter. -/
theorem c1_witness :
    [rowW].length
      = (([runW]).filter (fun r => gate r "A" "t" && emits [] r)).length :=
  c1_row_count [runW] "A" "t" [] [] false [rowW] (by decide) rfl

/-- C3: with no config or results filter in play, a run contributes a
row to `filter_runs` exactly when its group matches the group filter (or
the group filter is absent, i.e. the CLI default empty string) and its
job type matches the job-type filter (or that filter is absent); in
particular with neither filter given every run is included. -/
theorem c3_gate_iff (r : Run) (gf jf : String) :
    (included r gf jf = true
      ↔ ((r.group = gf ∨ gf = "") ∧ (r.job_type = jf ∨ jf = "")))
    ∧ included r "" "" = true := by
  have hrow : buildRow [] [] false r
      = .ok (some (dInsertMany
          (dInsertMany [("group", Value.s r.group), ("job_type", Value.s r.job_type),
            ("run_name", Value.s r.name)]
            (r.config.filter (fun kv => !(kv.1.startsWith "_"))))
          r.summary)) := by
    simp only [buildRow, configSelect, exceptBindOk, List.isEmpty_nil, if_true]
    rfl
  have hmain : ∀ g j, included r g j = gate r g j := by
    intro g j
    unfold included buildRows
    by_cases hg : gate r g j
    · rw [if_pos hg, hrow, exceptBindOk, hg]
      rfl
    · rw [if_neg hg]
      have hg' : gate r g j = false := by revert hg; cases gate r g j <;> simp
      rw [hg']
      rfl
  constructor
  · rw [hmain gf jf]
    simp [gate, Bool.and_eq_true, Bool.or_eq_true, beq_iff_eq]
  · rw [hmain "" ""]
    simp [gate]

lemma lookup_cons_isSome (k k1 : String) (v1 : Value) (t : List (String × Value)) :
    (List.lookup k ((k1, v1) :: t)).isSome = ((k == k1) || (List.lookup k t).isSome) := by
  cases h : k == k1 <;> simp [List.lookup, h]

lemma lookup_replace_isSome (k k0 : String) (v : Value) :
    ∀ d : List (String × Value),
      ((d.map (fun p => if p.1 == k0 then (p.1, v) else p)).lookup k).isSome
        = (d.lookup k).isSome
  | [] => rfl
  | (k1, v1) :: t => by
    rw [List.map_cons]
    by_cases hpk : (k1 == k0) = true
    · rw [show (if (k1, v1).1 == k0 then ((k1, v1).1, v) else (k1, v1)) = (k1, v) from
        by simp [hpk]]
      rw [lookup_cons_isSome, lookup_cons_isSome, lookup_replace_isSome k k0 v t]
    · rw [show (if (k1, v1).1 == k0 then ((k1, v1).1, v) else (k1, v1)) = (k1, v1) from
        by simp [hpk]]
      rw [lookup_cons_isSome, lookup_cons_isSome, lookup_replace_isSome k k0 v t]

lemma lookup_append_isSome (k : String) (d e : List (String × Value)) :
    ((d ++ e).lookup k).isSome = ((d.lookup k).isSome || (e.lookup k).isSome) := by
  induction d with
  | nil => simp
  | cons p t ih =>
    by_cases hk : k == p.1
    · simp [List.lookup, hk]
    · simp [List.lookup, hk, ih]

lemma lookup_isSome_of_any (k : String) :
    ∀ d : List (String × Value), d.any (fun p => p.1 == k) = true →
      (d.lookup k).isSome = true
  | (k1, v1) :: t, h => by
    rw [lookup_cons_isSome]
    by_cases hpk : (k1 == k) = true
    · have hk : (k == k1) = true := by
        rw [beq_iff_eq] at hpk ⊢
        exact hpk.symm
      rw [hk, Bool.true_or]
    · have ht : t.any (fun p => p.1 == k) = true := by
        simp only [List.any_cons] at h
        rcases Bool.or_eq_true_iff.mp h with h1 | h1
        · exact absurd h1 hpk
        · exact h1
      rw [lookup_isSome_of_any k t ht, Bool.or_true]

lemma dInsert_lookup_mono (d : List (String × Value)) (kv : String × Value)
    (k : String) (h : (d.lookup k).isSome = true) :
    ((dInsert d kv).lookup k).isSome = true := by
  unfold dInsert
  by_cases hany : d.any (fun p => p.1 == kv.1)
  · rw [if_pos hany, lookup_replace_isSome]
    exact h
  · rw [if_neg hany, lookup_append_isSome, h, Bool.true_or]

lemma dInsert_lookup_self (d : List (String × Value)) (kv : String × Value) :
    ((dInsert d kv).lookup kv.1).isSome = true := by
  unfold dInsert
  by_cases hany : d.any (fun p => p.1 == kv.1)
  · rw [if_pos hany, lookup_replace_isSome]
    exact lookup_isSome_of_any kv.1 d hany
  · rw [if_neg hany, lookup_append_isSome]
    simp [List.lookup]

lemma dInsertMany_lookup_mono (k : String) :
    ∀ (l d : List (String × Value)), (d.lookup k).isSome = true →
      ((dInsertMany d l).lookup k).isSome = true
  | [], _, h => h
  | kv :: t, d, h => by
    show ((dInsertMany (dInsert d kv) t).lookup k).isSome = true
    exact dInsertMany_lookup_mono k t _ (dInsert_lookup_mono d kv k h)

lemma dInsertMany_lookup_of_mem (kv : String × Value) :
    ∀ (l d : List (String × Value)), kv ∈ l →
      ((dInsertMany d l).lookup kv.1).isSome = true
  | p :: t, d, hm => by
    show ((dInsertMany (dInsert d p) t).lookup kv.1).isSome = true
    rcases List.mem_cons.mp hm with h | h
    · subst h
      exact dInsertMany_lookup_mono kv.1 t _ (dInsert_lookup_self d kv)
    · exact dInsertMany_lookup_of_mem kv t _ h

/-- C9: prune mode holds exactly when the config filter is non-empty and
its first element lowercases to "different"; in that mode the rest of
the filter is ignored and the whole underscore-filtered config is
copied, so every non-underscore config key ends up in the row; when the
first element is not "different" the named keys are looked up one by
one — a later "different" is treated as an ordinary config key. -/
theorem c9_config_filter_modes (c0 : String) (tail : List String)
    (cfg : List (String × Value)) (r : Run) :
    pruneMode [] = false
    ∧ pruneMode (c0 :: tail) = (lowerStr c0 == "different")
    ∧ (lowerStr c0 = "different" → configSelect (c0 :: tail) cfg = .ok cfg)
    ∧ (lowerStr c0 ≠ "different" → configSelect (c0 :: tail) cfg
        = (c0 :: tail).mapM (fun k =>
            match cfg.lookup k with
            | some v => Except.ok (k, v)
            | none => Except.error ("KeyError: " ++ k)))
    ∧ (lowerStr c0 = "different" →
        ∀ kv ∈ r.config.filter (fun p => !(p.1.startsWith "_")),
        ∀ row, buildRow (c0 :: tail) [] false r = .ok (some row) →
          (row.lookup kv.1).isSome = true) := by
  refine ⟨rfl, rfl, ?_, ?_, ?_⟩
  · intro h
    simp [configSelect, h]
  · intro h
    simp [configSelect, h]
  · intro h kv hkv row hrow
    simp only [buildRow, configSelect, if_pos (by simp [h] : (lowerStr c0 == "different") = true),
      exceptBindOk, List.isEmpty_nil, if_true] at hrow
    have hrow' : row = dInsertMany
        (dInsertMany [("group", Value.s r.group), ("job_type", Value.s r.job_type),
          ("run_name", Value.s r.name)]
          (r.config.filter (fun p => !(p.1.startsWith "_"))))
        r.summary := by
      cases hrow
      rfl
    subst hrow'
    apply dInsertMany_lookup_mono
    exact dInsertMany_lookup_of_mem kv _ _ hkv

lemma roundRule_eq_amended : roundRule = roundRuleAmended := by
  funext col
  unfold roundRule roundRuleAmended roundMarkers
  simp only [List.find?, Option.map, cond_true, cond_false]
  split_ifs <;> simp_all

/-- C4 counterexample: the claim says every substring marker is checked
case-insensitively, but the source checks `accuracy`, `f1_score` and
`lr` against the raw column name.  A float column named "LR" is left
unrounded by the code while the claimed case-insensitive stage rounds it
to 6 places. -/
theorem c4_counterexample :
    roundStage ⟨["LR"], [[Value.q (1/3)]]⟩
      ≠ roundStageClaimCI ⟨["LR"], [[Value.q (1/3)]]⟩ := by
  intro heq
  have hd : ([[Value.q (1/3)]] : List (List Value))
      = [[Value.q (roundTo 6 (1/3))]] := by
    have h1 : (roundStage ⟨["LR"], [[Value.q (1/3)]]⟩).data
        = [[Value.q (1/3)]] := rfl
    have h2 : (roundStageClaimCI ⟨["LR"], [[Value.q (1/3)]]⟩).data
        = [[Value.q (roundTo 6 (1/3))]] := rfl
    rw [← h1, ← h2, heq]
  have hq : (1 / 3 : ℚ) = roundTo 6 (1 / 3) := by
    simp only [List.cons.injEq, Value.q.injEq, and_true] at hd
    exact hd
  have hfl : (⌊(1 : ℚ) / 3 * 10 ^ 6 + 1 / 2⌋ : ℤ) = 333333 := by
    rw [Int.floor_eq_iff]
    constructor <;> norm_num
  unfold roundTo at hq
  rw [hfl] at hq
  norm_num at hq

/-- C4 (amended): the rounding stage checks each column name for the
substring markers — `accuracy`, `f1_score` and `lr` case-sensitively,
`ssim`, `psnr`, `sam`, `ergas` and `timestamp` case-insensitively, in
that precedence order — and rounds the column to the marker's number of
decimal places (accuracy 2, f1_score 3, lr 6, ssim 4, psnr 3, sam 3,
ergas 3, timestamp 0) exactly when the column's first value is a float;
all other columns are left unrounded. -/
theorem c4_rounding_amended (t : Table) : roundStage t = roundStageAmended t := by
  unfold roundStage roundStageAmended
  rw [roundRule_eq_amended]

lemma upChar_cases (c : Char) :
    upChar c = c ∨ ∃ p ∈ caseTable, c = p.1 ∧ upChar c = p.2 := by
  unfold upChar
  cases hf : caseTable.find? (fun p => p.1 == c) with
  | none => exact Or.inl rfl
  | some p =>
    refine Or.inr ⟨p, List.mem_of_find?_eq_some hf, ?_, rfl⟩
    have := List.find?_some hf
    exact (eq_of_beq this).symm

lemma downChar_cases (c : Char) :
    downChar c = c ∨ ∃ p ∈ caseTable, c = p.2 ∧ downChar c = p.1 := by
  unfold downChar
  cases hf : caseTable.find? (fun p => p.2 == c) with
  | none => exact Or.inl rfl
  | some p =>
    refine Or.inr ⟨p, List.mem_of_find?_eq_some hf, ?_, rfl⟩
    have := List.find?_some hf
    exact (eq_of_beq this).symm

lemma alpha_upChar (c : Char) : (upChar c).isAlpha = c.isAlpha := by
  rcases upChar_cases c with h | ⟨p, hp, hc, h⟩
  · rw [h]
  · rw [h, hc]
    revert hp
    have : ∀ p ∈ caseTable, (p.2).isAlpha = (p.1).isAlpha := by decide
    exact this p

lemma alpha_downChar (c : Char) : (downChar c).isAlpha = c.isAlpha := by
  rcases downChar_cases c with h | ⟨p, hp, hc, h⟩
  · rw [h]
  · rw [h, hc]
    revert hp
    have : ∀ p ∈ caseTable, (p.1).isAlpha = (p.2).isAlpha := by decide
    exact this p

lemma down_downChar (c : Char) : downChar (downChar c) = downChar c := by
  rcases downChar_cases c with h | ⟨p, hp, _, h⟩
  · rw [h]
    exact h
  · rw [h]
    revert hp
    have : ∀ p ∈ caseTable, downChar p.1 = p.1 := by decide
    exact this p

lemma down_upChar (c : Char) : downChar (upChar c) = downChar c := by
  rcases upChar_cases c with h | ⟨p, hp, hc, h⟩
  · rw [h]
  · rw [h, hc]
    revert hp
    have : ∀ p ∈ caseTable, downChar p.2 = downChar p.1 := by decide
    exact this p

lemma up_downChar (c : Char) : upChar (downChar c) = upChar c := by
  rcases downChar_cases c with h | ⟨p, hp, hc, h⟩
  · rw [h]
  · rw [h, hc]
    revert hp
    have : ∀ p ∈ caseTable, upChar p.1 = upChar p.2 := by decide
    exact this p

lemma alpha_of_caseTable_snd (c : Char) (p : Char × Char) (hp : p ∈ caseTable)
    (hc : c = p.2) : c.isAlpha = true := by
  subst hc
  revert hp
  have : ∀ p ∈ caseTable, (p.2).isAlpha = true := by decide
  exact this p

lemma down_id_of_not_alpha (c : Char) (h : ¬c.isAlpha = true) : downChar c = c := by
  rcases downChar_cases c with h0 | ⟨p, hp, hc, _⟩
  · exact h0
  · exact absurd (alpha_of_caseTable_snd c p hp hc) h

lemma eq_of_downChar_eq_sep (c s : Char) (hs : s = '/' ∨ s = '_')
    (h : downChar c = s) : c = s := by
  rcases downChar_cases c with h0 | ⟨p, hp, _, h0⟩
  · rw [← h0, h]
  · exfalso
    rw [h0] at h
    have hps : ∀ p ∈ caseTable, p.1 ≠ '/' ∧ p.1 ≠ '_' := by decide
    rcases hs with hs' | hs'
    · exact (hps p hp).1 (hs' ▸ h)
    · exact (hps p hp).2 (hs' ▸ h)

lemma titleAux_cons (b : Bool) (c : Char) (rest : List Char) :
    titleAux b (c :: rest)
      = (if c.isAlpha then (if b then downChar c else upChar c) else c)
        :: titleAux c.isAlpha rest := rfl

lemma titleAux_congr_down : ∀ (l1 l2 : List Char),
    l1.map downChar = l2.map downChar → ∀ b, titleAux b l1 = titleAux b l2
  | [], [], _, _ => rfl
  | [], _ :: _, h, _ => by simp at h
  | _ :: _, [], h, _ => by simp at h
  | c1 :: t1, c2 :: t2, h, b => by
    simp only [List.map_cons, List.cons.injEq] at h
    obtain ⟨hd, tl⟩ := h
    have halpha : c1.isAlpha = c2.isAlpha := by
      rw [← alpha_downChar c1, ← alpha_downChar c2, hd]
    rw [titleAux_cons, titleAux_cons, halpha,
      titleAux_congr_down t1 t2 tl c2.isAlpha]
    congr 1
    by_cases ha : c2.isAlpha = true
    · rw [if_pos ha, if_pos ha]
      have hup : upChar c1 = upChar c2 := by
        rw [← up_downChar c1, ← up_downChar c2, hd]
      cases b
      · simp only [Bool.false_eq_true, if_false, hup]
      · simp only [if_true, hd]
    · rw [if_neg ha, if_neg ha]
      rw [← down_id_of_not_alpha c1 (by rw [halpha]; exact ha),
        ← down_id_of_not_alpha c2 ha, hd]

lemma titleAux_map_down : ∀ (b : Bool) (l : List Char),
    (titleAux b l).map downChar = l.map downChar
  | _, [] => rfl
  | b, c :: t => by
    rw [titleAux_cons, List.map_cons, List.map_cons, titleAux_map_down c.isAlpha t]
    congr 1
    by_cases ha : c.isAlpha = true
    · rw [if_pos ha]
      cases b
      · simp only [Bool.false_eq_true, if_false]
        exact down_upChar c
      · simp only [if_true]
        exact down_downChar c
    · rw [if_neg ha]

lemma replLr_cons2 (a b : Char) (rest : List Char) :
    replLr (a :: b :: rest)
      = if a = 'L' ∧ b = 'r' then 'L' :: 'R' :: replLr rest
        else a :: replLr (b :: rest) := rfl

lemma replNn_cons2 (a b : Char) (rest : List Char) :
    replNn (a :: b :: rest)
      = if a = 'N' ∧ b = 'n' then 'N' :: 'N' :: replNn rest
        else a :: replNn (b :: rest) := rfl

lemma replLr_map_down : ∀ l : List Char, (replLr l).map downChar = l.map downChar
  | [] => rfl
  | [_] => rfl
  | a :: b :: rest => by
    by_cases h : a = 'L' ∧ b = 'r'
    · obtain ⟨h1, h2⟩ := h
      subst h1
      subst h2
      rw [replLr_cons2, if_pos ⟨rfl, rfl⟩]
      simp only [List.map_cons]
      rw [replLr_map_down rest]
      norm_num
      decide
    · rw [replLr_cons2, if_neg h, List.map_cons, List.map_cons,
        replLr_map_down (b :: rest), List.map_cons]

lemma replNn_map_down : ∀ l : List Char, (replNn l).map downChar = l.map downChar
  | [] => rfl
  | [_] => rfl
  | a :: b :: rest => by
    by_cases h : a = 'N' ∧ b = 'n'
    · obtain ⟨h1, h2⟩ := h
      subst h1
      subst h2
      rw [replNn_cons2, if_pos ⟨rfl, rfl⟩]
      simp only [List.map_cons]
      rw [replNn_map_down rest]
      norm_num
      decide
    · rw [replNn_cons2, if_neg h, List.map_cons, List.map_cons,
        replNn_map_down (b :: rest), List.map_cons]

lemma sepChar_ne (c : Char) : sepChar c ≠ '/' ∧ sepChar c ≠ '_' := by
  unfold sepChar
  split_ifs with h1 h2
  · exact ⟨by decide, by decide⟩
  · exact ⟨by decide, by decide⟩
  · exact ⟨h1, h2⟩

lemma mapColName_chars_no_sep (x : List Char) (s : Char)
    (hs : s = '/' ∨ s = '_') :
    s ∉ replNn (replLr (titleAux false (x.map sepChar))) := by
  intro hmem
  have hdown : downChar s = s := by
    rcases hs with h | h <;> subst h <;> decide
  have h1 : s ∈ (replNn (replLr (titleAux false (x.map sepChar)))).map downChar :=
    hdown ▸ List.mem_map_of_mem downChar hmem
  rw [replNn_map_down, replLr_map_down, titleAux_map_down] at h1
  obtain ⟨d, hd, hds⟩ := List.mem_map.mp h1
  have hd' : d = s := eq_of_downChar_eq_sep d s hs hds
  subst hd'
  obtain ⟨e, _, he⟩ := List.mem_map.mp hd
  rcases hs with h | h
  · exact (sepChar_ne e).1 (h ▸ he)
  · exact (sepChar_ne e).2 (h ▸ he)

lemma sep_id_of_no_sep (l : List Char) (h : ∀ c ∈ l, c ≠ '/' ∧ c ≠ '_') :
    l.map sepChar = l := by
  induction l with
  | nil => rfl
  | cons c t ih =>
    rw [List.map_cons, ih (fun d hd => h d (List.mem_cons_of_mem c hd))]
    congr 1
    unfold sepChar
    rw [if_neg (h c (List.mem_cons_self c t)).1,
      if_neg (h c (List.mem_cons_self c t)).2]

/-- C8: the column-title mapper is idempotent — on a name containing no
path separator or underscore (and in fact on any name), applying
`get_columns_mapper`'s per-name transformation twice gives the same
display name as applying it once. -/
theorem c8_mapper_idempotent (name : String)
    (_h : '/' ∉ name.data ∧ '_' ∉ name.data) :
    mapColName (mapColName name) = mapColName name := by
  unfold mapColName
  refine congrArg String.mk ?_
  show replNn (replLr (titleAux false
      ((replNn (replLr (titleAux false (name.data.map sepChar)))).map sepChar)))
    = replNn (replLr (titleAux false (name.data.map sepChar)))
  have hns : ∀ c ∈ replNn (replLr (titleAux false (name.data.map sepChar))),
      c ≠ '/' ∧ c ≠ '_' := fun c hc =>
    ⟨fun he => mapColName_chars_no_sep name.data '/' (Or.inl rfl) (he ▸ hc),
     fun he => mapColName_chars_no_sep name.data '_' (Or.inr rfl) (he ▸ hc)⟩
  rw [sep_id_of_no_sep _ hns]
  have hdc : (replNn (replLr (titleAux false (name.data.map sepChar)))).map downChar
      = (name.data.map sepChar).map downChar := by
    rw [replNn_map_down, replLr_map_down, titleAux_map_down]
  rw [titleAux_congr_down _ _ hdc false]

/-- Witness for C8 at a concrete separator-free name. -/
theorem c8_witness :
    mapColName (mapColName "lrx") = mapColName "lrx" :=
  c8_mapper_idempotent "lrx" (by decide)
